import Mathlib

/-!
Shallow embedding of the headline repository of `src/src/services/headline.ts`
and of the mutation façade of `src/src/actions/headline-actions.ts`.

Conventions of the embedding:
* JS arrays become `List`, JS numbers holding integral values become `Int`
  (the `order` field, `displayLines`, `page`, `pageSize`) or `Nat` (counters),
  JS strings become `String`.
* `Date` values are carried as their ISO-string representation (`String`);
  `toISOString` and `parseHeadlineDates` are representation changes only and
  are modelled as the identity on that representation.
* `Array.prototype.sort` with comparator `(a, b) => a.order - b.order` is the
  stable ascending sort by `order`; it is modelled by `List.insertionSort`
  with the relation `leOrder`, which is a stable ascending sort by `order`.
* a JS `Map` built from `orderedIds.map((id, index) => [id, index])` maps each
  id to the index of its LAST occurrence (later entries overwrite earlier
  ones); `lastIdx` models that lookup.
* functions that can `throw` are modelled with `Except String`; functions of
  the service that never throw (the deletes, the reorder, the queries) are
  modelled as total functions.
* `saveData` (persistence) and `console` logging are effect-free with respect
  to the store contents and are dropped.
-/

namespace HeadlineRepo

/-- Workflow states of a headline (`HeadlineState` in `headline.ts`). -/
inductive HeadlineState where
  | Draft
  | InReview
  | Approved
  | Archived
deriving DecidableEq, Repr

/-- Priority levels of a headline (`HeadlinePriority` in `headline.ts`). -/
inductive HeadlinePriority where
  | High
  | Normal
deriving DecidableEq, Repr

/-- A headline record (`Headline` interface in `headline.ts`). -/
structure Headline where
  id : String
  mainTitle : String
  subtitle : String
  categories : List String
  state : HeadlineState
  priority : HeadlinePriority
  displayLines : Int
  publishDate : String
  isBreaking : Bool
  order : Int
deriving DecidableEq, Repr

/-- A category record (`Category` interface in `headline.ts`). -/
structure Category where
  id : String
  name : String
deriving DecidableEq, Repr

/-- The persisted store (`DbData` interface in `headline.ts`). -/
structure DbData where
  headlines : List Headline
  categories : List Category
  nextHeadlineId : Nat
  nextCategoryId : Nat
deriving DecidableEq, Repr

/-- The comparison relation of the sort `(a, b) => a.order - b.order`:
ascending by `order`. -/
def leOrder (a b : Headline) : Prop := a.order ≤ b.order

instance : DecidableRel leOrder := fun a b => inferInstanceAs (Decidable (a.order ≤ b.order))

instance : IsTotal Headline leOrder := ⟨fun a b => Int.le_total a.order b.order⟩

instance : IsTrans Headline leOrder := ⟨fun _ _ _ h h' => le_trans h h'⟩

/-- The stable ascending sort by `order` used throughout the service
(`dbData.headlines.sort((a, b) => a.order - b.order)` and the sort in
`getHeadlines`). -/
def sortByOrder (hs : List Headline) : List Headline := List.insertionSort leOrder hs

/-- Lookup in the JS `Map` built from `orderedIds.map((id, index) => [id, index])`:
returns the index of the last occurrence of `a`, offset by `n`. -/
def lastIdxAux (n : Nat) : List String → String → Option Nat
  | [], _ => none
  | x :: xs, a =>
    match lastIdxAux (n + 1) xs a with
    | some j => some j
    | none => if x = a then some n else none

/-- Index of the last occurrence of `a` in `l` (`new Map(...)` lookup). -/
def lastIdx (l : List String) (a : String) : Option Nat := lastIdxAux 0 l a

/-- The `minCurrentOrder` computation of `reorderHeadlines`: fold over the
headlines, taking the minimum `order` of those whose id is in the map.
`none` stands for the initial `Infinity`. -/
def minCurrentOrder (orderedIds : List String) (hs : List Headline) : Option Int :=
  hs.foldl
    (fun acc h =>
      if (lastIdx orderedIds h.id).isSome then
        match acc with
        | none => some h.order
        | some m => some (min m h.order)
      else acc)
    none

/-- The per-headline order update of `reorderHeadlines`: a headline in the
map gets `order := minBase + its index in the map`, others are unchanged. -/
def applyNewOrder (orderedIds : List String) (base : Int) (h : Headline) : Headline :=
  match lastIdx orderedIds h.id with
  | some i => { h with order := base + (i : Int) }
  | none => h

/-- The final renumbering pass of `reorderHeadlines`
(`dbData.headlines.forEach((headline, index) => headline.order = index)`),
starting at index `n`. -/
def renumberFrom (n : Nat) : List Headline → List Headline
  | [] => []
  | h :: t => { h with order := (n : Int) } :: renumberFrom (n + 1) t

/-- `reorderHeadlines(orderedIds)` of `headline.ts` acting on the headline
list: compute the minimum current order of the referenced headlines
(falling back to 0), give each referenced headline
`order = minBase + position`, stably re-sort the whole list by `order`,
then renumber every headline sequentially from 0. -/
def reorderHeadlines (orderedIds : List String) (hs : List Headline) : List Headline :=
  let minBase : Int := (minCurrentOrder orderedIds hs).getD 0
  let updated := hs.map (applyNewOrder orderedIds minBase)
  renumberFrom 0 (sortByOrder updated)

/-- `reorderHeadlinesAction(orderedIds)` of `headline-actions.ts` acting on
the headline list: an empty id list returns success without calling the
service; otherwise the service reorder runs. The `Bool` is the `success`
flag of the returned object. -/
def reorderHeadlinesAction (orderedIds : List String) (hs : List Headline) :
    List Headline × Bool :=
  if orderedIds.length = 0 then (hs, true)
  else (reorderHeadlines orderedIds hs, true)

/-- Input of `createHeadline` (`HeadlineCreateInput` in `headline.ts`):
a headline without `id` and `order`; `publishDate` is carried as its
ISO-string representation. -/
structure HeadlineCreateInput where
  mainTitle : String
  subtitle : String
  categories : List String
  state : HeadlineState
  priority : HeadlinePriority
  displayLines : Int
  publishDate : String
  isBreaking : Bool
deriving DecidableEq, Repr

/-- `createHeadline(headlineData)` of `headline.ts`: mint
`headline-<nextHeadlineId>`, set `order` to one more than the maximum
current order (the reduce starts at -1), push the record at the end of the
list, and return the new id with the new store. -/
def createHeadline (data : HeadlineCreateInput) (db : DbData) : String × DbData :=
  let newId := "headline-" ++ toString db.nextHeadlineId
  let maxOrder := db.headlines.foldl (fun m h => max m h.order) (-1)
  let newHeadline : Headline :=
    { id := newId
      mainTitle := data.mainTitle
      subtitle := data.subtitle
      categories := data.categories
      state := data.state
      priority := data.priority
      displayLines := data.displayLines
      publishDate := data.publishDate
      isBreaking := data.isBreaking
      order := maxOrder + 1 }
  (newId,
   { db with
      headlines := db.headlines ++ [newHeadline]
      nextHeadlineId := db.nextHeadlineId + 1 })

/-- `deleteHeadline(id)` of `headline.ts`: filter the headline out; an
absent id leaves the list as it was (the function warns but never throws). -/
def deleteHeadline (id : String) (db : DbData) : DbData :=
  { db with headlines := db.headlines.filter (fun h => h.id ≠ id) }

/-- `deleteMultipleHeadlines(ids)` of `headline.ts`: filter out every
headline whose id is in the list; ids not found are silently skipped. -/
def deleteMultipleHeadlines (ids : List String) (db : DbData) : DbData :=
  { db with headlines := db.headlines.filter (fun h => h.id ∉ ids) }

/-- `deleteCategory(id)` of `headline.ts`: remove the category; only when
the category actually existed does the cascade strip its id from every
headline's category list. Never throws (absent id only warns). -/
def deleteCategory (id : String) (db : DbData) : DbData :=
  let cats := db.categories.filter (fun c => c.id ≠ id)
  if cats.length = db.categories.length then
    { db with categories := cats }
  else
    { db with
        categories := cats
        headlines := db.headlines.map
          (fun h => { h with categories := h.categories.filter (fun c => c ≠ id) }) }

/-- `updateMultipleHeadlineStates(ids, state)` of `headline.ts`: map over the
headlines, rewriting `state` only when the id matches AND the state differs,
and count exactly those rewrites (`updatedCount`). The count is the value
reported by the function's log and drives its persistence decision; the
function itself resolves with `void`. -/
def updateMultipleHeadlineStates (ids : List String) (st : HeadlineState)
    (hs : List Headline) : List Headline × Nat :=
  (hs.map (fun h => if h.id ∈ ids ∧ h.state ≠ st then { h with state := st } else h),
   hs.countP (fun h => decide (h.id ∈ ids ∧ h.state ≠ st)))

/-- Filters accepted by `getHeadlines` (`HeadlineFilters` in `headline.ts`).
`none` models an absent (`undefined`) field. -/
structure HeadlineFilters where
  states : Option (List HeadlineState) := none
  category : Option String := none
  search : Option String := none
  isBreaking : Option Bool := none
  ids : Option (List String) := none
deriving Repr

/-- Substring test modelling JS `String.prototype.includes`. -/
def strIncludes (s t : String) : Bool := decide (t.data <:+: s.data)

/-- Lower-casing modelling JS `toLowerCase` on the ASCII range. -/
def jsToLower (s : String) : String := s.toLower

/-- The non-id filter chain of `getHeadlines`: `states` (when present and
non-empty), `category` (when present and non-empty — an empty string is
falsy in JS), `search` (likewise), `isBreaking` (when present). -/
def otherFilters (f : HeadlineFilters) (hs : List Headline) : List Headline :=
  let hs1 := match f.states with
    | some sts => if sts.length > 0 then hs.filter (fun h => h.state ∈ sts) else hs
    | none => hs
  let hs2 := match f.category with
    | some c => if c ≠ "" then hs1.filter (fun h => c ∈ h.categories) else hs1
    | none => hs1
  let hs3 := match f.search with
    | some s =>
        if s ≠ "" then
          hs2.filter (fun h =>
            strIncludes (jsToLower h.mainTitle) (jsToLower s) ||
            strIncludes (jsToLower h.subtitle) (jsToLower s))
        else hs2
    | none => hs2
  match f.isBreaking with
  | some b => hs3.filter (fun h => h.isBreaking == b)
  | none => hs3

/-- The filter step of `getHeadlines`: a present, non-empty `ids` filter
selects exactly the headlines whose id is in it and short-circuits every
other filter field. -/
def applyFilters (f : HeadlineFilters) (hs : List Headline) : List Headline :=
  match f.ids with
  | some ids => if ids.length > 0 then hs.filter (fun h => h.id ∈ ids) else otherFilters f hs
  | none => otherFilters f hs

/-- Whether the `filters.ids && filters.ids.length > 0` test of
`getHeadlines` holds (the id-filter path). -/
def idsProvided (f : HeadlineFilters) : Bool :=
  match f.ids with
  | some ids => ids.length > 0
  | none => false

/-- `getHeadlines(filters, page, pageSize)` of `headline.ts`: filter, stably
sort by `order` ascending, record `totalCount` before pagination, and slice
`[(page-1)*pageSize, page*pageSize)` only when `page > 0`, `pageSize > 0`
and the id-filter path was not taken. Returns `(items, totalCount)`. -/
def getHeadlines (f : HeadlineFilters) (page pageSize : Int) (hs : List Headline) :
    List Headline × Nat :=
  let sorted := sortByOrder (applyFilters f hs)
  let totalCount := sorted.length
  if page > 0 ∧ pageSize > 0 ∧ idsProvided f = false then
    (((sorted.drop ((page - 1) * pageSize).toNat).take pageSize.toNat), totalCount)
  else
    (sorted, totalCount)

/-- Partial update payload (`HeadlineUpdateInput` in `headline.ts`, also the
shape of `HeadlineUpdateData` in `headline-actions.ts`): every field
independently absent (`none`) or present. The source destructures away any
`order` field, so `order` is not part of the payload at all. -/
structure HeadlineUpdateInput where
  mainTitle : Option String := none
  subtitle : Option String := none
  categories : Option (List String) := none
  state : Option HeadlineState := none
  priority : Option HeadlinePriority := none
  displayLines : Option Int := none
  publishDate : Option String := none
  isBreaking : Option Bool := none
deriving DecidableEq, Repr

/-- The merge step of `updateHeadline`: present fields overwrite, absent
fields keep the stored value; `order` is untouched. -/
def mergeUpdate (h : Headline) (u : HeadlineUpdateInput) : Headline :=
  { h with
      mainTitle := u.mainTitle.getD h.mainTitle
      subtitle := u.subtitle.getD h.subtitle
      categories := u.categories.getD h.categories
      state := u.state.getD h.state
      priority := u.priority.getD h.priority
      displayLines := u.displayLines.getD h.displayLines
      publishDate := u.publishDate.getD h.publishDate
      isBreaking := u.isBreaking.getD h.isBreaking }

/-- `updateHeadline(id, headlineUpdate)` of `headline.ts`: find the first
headline with the id; throw (`Except.error`) when absent, otherwise merge
the provided fields into that record. -/
def updateHeadline (id : String) (u : HeadlineUpdateInput) (db : DbData) :
    Except String DbData :=
  let i := db.headlines.findIdx (fun h => h.id = id)
  if hlt : i < db.headlines.length then
    Except.ok { db with headlines := db.headlines.set i (mergeUpdate (db.headlines.get ⟨i, hlt⟩) u) }
  else
    Except.error ("Headline with ID " ++ id ++ " not found.")

/-- Create payload at the action layer (`HeadlineCreateData` in
`headline-actions.ts`, the output type of the zod schema). -/
structure HeadlineCreateData where
  mainTitle : String
  subtitle : String
  categories : List String
  state : HeadlineState
  priority : HeadlinePriority
  displayLines : Int
  publishDate : String
  isBreaking : Bool
deriving DecidableEq, Repr

/-- Conversion of validated action data into the service's create input. -/
def toCreateInput (d : HeadlineCreateData) : HeadlineCreateInput :=
  { mainTitle := d.mainTitle
    subtitle := d.subtitle
    categories := d.categories
    state := d.state
    priority := d.priority
    displayLines := d.displayLines
    publishDate := d.publishDate
    isBreaking := d.isBreaking }

/-- The zod messages of `headlineActionSchema` for a full create payload, in
schema field order: `mainTitle` must be non-empty, `categories` must be
non-empty, `displayLines` must lie in `[1, 3]` (zod's default messages for
`min`/`max` on a number). `state`, `priority`, `publishDate` and
`isBreaking` cannot fail on a well-typed payload. -/
def createValidationMessages (d : HeadlineCreateData) : List String :=
  (if d.mainTitle.length ≥ 1 then [] else ["Main title cannot be empty"]) ++
  (if d.categories.length ≥ 1 then [] else ["At least one category is required"]) ++
  (if d.displayLines < 1 then ["Number must be greater than or equal to 1"] else []) ++
  (if d.displayLines > 3 then ["Number must be less than or equal to 3"] else [])

/-- The zod messages of `headlineActionSchema.partial()` for a partial
update payload: each check runs only when the field is present. -/
def updateValidationMessages (u : HeadlineUpdateInput) : List String :=
  (match u.mainTitle with
   | some t => if t.length ≥ 1 then [] else ["Main title cannot be empty"]
   | none => []) ++
  (match u.categories with
   | some c => if c.length ≥ 1 then [] else ["At least one category is required"]
   | none => []) ++
  (match u.displayLines with
   | some n =>
      (if n < 1 then ["Number must be greater than or equal to 1"] else []) ++
      (if n > 3 then ["Number must be less than or equal to 3"] else [])
   | none => [])

/-- Separator used by `Object.values(errors).flat().join(', ')`. -/
def commaSep : String := ", "

/-- `createHeadlineAction(data)` of `headline-actions.ts`: on a validation
failure it throws (`Except.error`) an `Error` whose message joins the field
messages with a comma; on success it calls the service and returns
`success` with the new id and store. -/
def createHeadlineAction (d : HeadlineCreateData) (db : DbData) :
    Except String (String × DbData) :=
  let msgs := createValidationMessages d
  if msgs.length > 0 then
    Except.error ("Invalid headline data: " ++ String.intercalate commaSep msgs)
  else
    Except.ok (createHeadline (toCreateInput d) db)

/-- `updateHeadlineAction(id, data)` of `headline-actions.ts`: on a
validation failure it throws (`Except.error`) an `Error` whose message joins
the field messages with a comma; an all-absent payload short-circuits with
success; otherwise the service runs, and a service throw (id not found) is
caught and re-thrown as a generic failure. -/
def updateHeadlineAction (id : String) (u : HeadlineUpdateInput) (db : DbData) :
    Except String DbData :=
  let msgs := updateValidationMessages u
  if msgs.length > 0 then
    Except.error ("Invalid headline update data: " ++ String.intercalate commaSep msgs)
  else if u = {} then
    Except.ok db
  else
    match updateHeadline id u db with
    | Except.ok db' => Except.ok db'
    | Except.error _ => Except.error "Failed to update headline."

/-- One mutation of the headline store, for the operation-sequence claims:
the reorder, create, single-delete and bulk-delete entry points of
`headline.ts`. -/
inductive Op where
  | reorder (orderedIds : List String)
  | create (data : HeadlineCreateInput)
  | deleteOne (id : String)
  | deleteMany (ids : List String)

/-- Application of one mutation to the store. -/
def applyOp (db : DbData) : Op → DbData
  | Op.reorder orderedIds => { db with headlines := reorderHeadlines orderedIds db.headlines }
  | Op.create data => (createHeadline data db).2
  | Op.deleteOne id => deleteHeadline id db
  | Op.deleteMany ids => deleteMultipleHeadlines ids db

/-- Application of a sequence of mutations, first operation first. -/
def applyOps (db : DbData) (ops : List Op) : DbData := ops.foldl applyOp db

/-- Pairwise distinctness of the `order` values of a headline list (the
total-order invariant of the spec). -/
def distinctOrders (hs : List Headline) : Prop :=
  hs.Pairwise (fun a b => a.order ≠ b.order)

/-- Pairwise distinctness of the ids of a headline list. -/
def distinctIds (hs : List Headline) : Prop :=
  hs.Pairwise (fun a b => a.id ≠ b.id)

/-- Referential integrity: every category id referenced by a headline names
an existing category. -/
def categoriesIntegrity (db : DbData) : Prop :=
  ∀ h ∈ db.headlines, ∀ c ∈ h.categories, ∃ cat ∈ db.categories, cat.id = c

/-- Index of the first headline with id `a` (length of the list when absent). -/
def findIdxId (l : List Headline) (a : String) : Nat :=
  l.findIdx (fun h => h.id == a)

lemma renumberFrom_map_order (l : List Headline) :
    ∀ n, (renumberFrom n l).map (fun h => h.order) =
      (List.range' n l.length).map Int.ofNat := by
  induction l with
  | nil => intro n; rfl
  | cons h t ih => intro n; simp [renumberFrom, List.range', ih]

lemma renumberFrom_length (l : List Headline) :
    ∀ n, (renumberFrom n l).length = l.length := by
  induction l with
  | nil => intro n; rfl
  | cons h t ih => intro n; simp [renumberFrom, ih]

lemma sortByOrder_perm (hs : List Headline) : List.Perm (sortByOrder hs) hs :=
  List.perm_insertionSort leOrder hs

lemma sortByOrder_sorted (hs : List Headline) : List.Sorted leOrder (sortByOrder hs) :=
  List.sorted_insertionSort leOrder hs

/-- The headline count is preserved by `reorderHeadlines`. -/
lemma reorderHeadlines_length (orderedIds : List String) (hs : List Headline) :
    (reorderHeadlines orderedIds hs).length = hs.length := by
  unfold reorderHeadlines
  rw [renumberFrom_length, (sortByOrder_perm _).length_eq, List.length_map]

/-- CLAIM C10. Implicit contiguous renumbering: for every input id sequence
and every store state — even one with gaps or duplicate order values — the
order values of the `n` headlines left by `reorderHeadlines` are exactly the
contiguous sequence `0, 1, …, n-1`, read off the (order-sorted) result list. -/
theorem reorder_renumbers_contiguously (orderedIds : List String) (hs : List Headline) :
    (reorderHeadlines orderedIds hs).map (fun h => h.order) =
      (List.range hs.length).map Int.ofNat := by
  unfold reorderHeadlines
  rw [renumberFrom_map_order, List.range_eq_range',
    (sortByOrder_perm _).length_eq, List.length_map]

/-- The map of an empty id list has no entries. -/
lemma lastIdxAux_nil (n : Nat) (a : String) : lastIdxAux n [] a = none := rfl

/-- CLAIM C9 (amended part). Empty reorder request: the façade-level
`reorderHeadlinesAction` returns success on an empty id sequence without
calling the service, leaving every headline — every order value included —
unchanged; the service-level `reorderHeadlines` on an empty sequence leaves
the identity of the records alone but still stably re-sorts the whole
collection by `order` and renumbers it `0, 1, …, n-1`. -/
theorem empty_reorder_action_noop (hs : List Headline) :
    reorderHeadlinesAction [] hs = (hs, true) ∧
      reorderHeadlines [] hs = renumberFrom 0 (sortByOrder hs) := by
  constructor
  · rfl
  · have hm : hs.map (applyNewOrder [] ((minCurrentOrder [] hs).getD 0)) = hs := by
      have h1 : hs.map (applyNewOrder [] ((minCurrentOrder [] hs).getD 0)) = hs.map id :=
        List.map_congr_left (fun h _ => by simp [applyNewOrder, lastIdx, lastIdxAux_nil])
      rw [h1, List.map_id]
    simp only [reorderHeadlines]
    rw [hm]

/-- A concrete store on which the service-level claim fails: one headline
with order 5. -/
def headlineOrder5 : Headline :=
  { id := "h1"
    mainTitle := "t"
    subtitle := ""
    categories := []
    state := HeadlineState.Draft
    priority := HeadlinePriority.Normal
    displayLines := 1
    publishDate := ""
    isBreaking := false
    order := 5 }

/-- CLAIM C9 (counterexample). As stated — with the cited service function
`reorderHeadlines` as the reorder operation — the claim is false: on the
store `[headlineOrder5]` (a single headline of order 5) an empty id
sequence changes that headline's order value to 0, so the store is not
"exactly as it was before the call". -/
theorem empty_reorder_service_changes_store :
    reorderHeadlines [] [headlineOrder5] ≠ [headlineOrder5] ∧
      (reorderHeadlines [] [headlineOrder5]).map (fun h => h.order) = [0] ∧
      headlineOrder5.order = 5 := by
  refine ⟨?_, rfl, rfl⟩
  decide

/-- CLAIM C8. Idempotent delete: deleting a headline id absent from the
store and deleting a category id absent from the store are both no-ops that
leave the store exactly as it was (the source functions only log a warning
and never throw), and deleting the same headline id twice always leaves the
store exactly as after the first delete. -/
theorem delete_idempotent (db db' : DbData) (id : String)
    (hH : ∀ h ∈ db.headlines, h.id ≠ id) (hC : ∀ c ∈ db.categories, c.id ≠ id) :
    deleteHeadline id db = db ∧ deleteCategory id db = db ∧
      deleteHeadline id (deleteHeadline id db') = deleteHeadline id db' := by
  refine ⟨?_, ?_, ?_⟩
  · have hf : db.headlines.filter (fun h => h.id ≠ id) = db.headlines :=
      List.filter_eq_self.mpr (fun h hm => by simpa using hH h hm)
    simp only [deleteHeadline]
    rw [hf]
  · have hf : db.categories.filter (fun c => c.id ≠ id) = db.categories :=
      List.filter_eq_self.mpr (fun c hm => by simpa using hC c hm)
    have hlen : (db.categories.filter (fun c => c.id ≠ id)).length = db.categories.length := by
      rw [hf]
    simp only [deleteCategory]
    rw [if_pos hlen, hf]
  · have hf : (db'.headlines.filter (fun h => h.id ≠ id)).filter (fun h => h.id ≠ id) =
        db'.headlines.filter (fun h => h.id ≠ id) :=
      List.filter_eq_self.mpr (fun h hm => (List.mem_filter.mp hm).2)
    simp only [deleteHeadline]
    rw [hf]

/-- A tiny concrete store used by the closed witnesses. -/
def witnessDb : DbData :=
  { headlines := [headlineOrder5]
    categories := [{ id := "tech", name := "Technology" }]
    nextHeadlineId := 2
    nextCategoryId := 2 }

/-- Witness for C8: on a concrete store holding headline `h1` and category
`tech`, the id `zz` is absent from both, and the theorem's conclusions hold
there. -/
theorem delete_idempotent_witness :
    (∀ h ∈ witnessDb.headlines, h.id ≠ "zz") ∧
      (∀ c ∈ witnessDb.categories, c.id ≠ "zz") ∧
      (deleteHeadline "zz" witnessDb = witnessDb ∧ deleteCategory "zz" witnessDb = witnessDb ∧
        deleteHeadline "zz" (deleteHeadline "zz" witnessDb) = deleteHeadline "zz" witnessDb) :=
  ⟨by decide, by decide,
    delete_idempotent witnessDb witnessDb "zz" (by decide) (by decide)⟩

/-- CLAIM C5. Cascading category delete: when the deleted category id
exists, `deleteCategory` removes that category record, strips the id from
every headline's category list while changing no other headline field (the
map rewrites only `categories`), and preserves referential integrity, so no
headline references a nonexistent category after the delete settles. -/
theorem delete_category_cascades (db : DbData) (id : String)
    (hex : ∃ c ∈ db.categories, c.id = id) :
    (deleteCategory id db).categories = db.categories.filter (fun c => c.id ≠ id) ∧
      (∀ c ∈ (deleteCategory id db).categories, c.id ≠ id) ∧
      (deleteCategory id db).headlines = db.headlines.map
        (fun h => { h with categories := h.categories.filter (fun c => c ≠ id) }) ∧
      (∀ h ∈ (deleteCategory id db).headlines, id ∉ h.categories) ∧
      (categoriesIntegrity db → categoriesIntegrity (deleteCategory id db)) := by
  obtain ⟨c₀, hc₀, hc₀id⟩ := hex
  have hlt : (db.categories.filter (fun c => c.id ≠ id)).length < db.categories.length := by
    refine List.length_filter_lt_length_iff_exists.mpr ⟨c₀, hc₀, ?_⟩
    simp [hc₀id]
  have hne : ¬((db.categories.filter (fun c => c.id ≠ id)).length = db.categories.length) :=
    Nat.ne_of_lt hlt
  have hdel : deleteCategory id db =
      { db with
          categories := db.categories.filter (fun c => c.id ≠ id)
          headlines := db.headlines.map
            (fun h => { h with categories := h.categories.filter (fun c => c ≠ id) }) } := by
    simp only [deleteCategory]
    rw [if_neg hne]
  refine ⟨by rw [hdel], ?_, by rw [hdel], ?_, ?_⟩
  · intro c hc
    rw [hdel] at hc
    simpa using (List.mem_filter.mp hc).2
  · intro h hh
    rw [hdel] at hh
    obtain ⟨h₀, _, rfl⟩ := List.mem_map.mp hh
    intro hmem
    have := (List.mem_filter.mp hmem).2
    simp at this
  · intro hint h hh c hc
    rw [hdel] at hh ⊢
    obtain ⟨h₀, hh₀, rfl⟩ := List.mem_map.mp hh
    have hcm := List.mem_filter.mp hc
    obtain ⟨cat, hcat, hcatid⟩ := hint h₀ hh₀ c hcm.1
    refine ⟨cat, List.mem_filter.mpr ⟨hcat, ?_⟩, hcatid⟩
    have hcne : c ≠ id := by simpa using hcm.2
    simp [hcatid, hcne]

/-- Witness for C5: deleting the existing category `tech` from the concrete
store satisfies the theorem's hypotheses and conclusions. -/
theorem delete_category_cascades_witness :
    (∃ c ∈ witnessDb.categories, c.id = "tech") ∧
      ((deleteCategory "tech" witnessDb).categories =
          witnessDb.categories.filter (fun c => c.id ≠ "tech") ∧
        (∀ c ∈ (deleteCategory "tech" witnessDb).categories, c.id ≠ "tech") ∧
        (deleteCategory "tech" witnessDb).headlines = witnessDb.headlines.map
          (fun h => { h with categories := h.categories.filter (fun c => c ≠ "tech") }) ∧
        (∀ h ∈ (deleteCategory "tech" witnessDb).headlines, "tech" ∉ h.categories) ∧
        (categoriesIntegrity witnessDb → categoriesIntegrity (deleteCategory "tech" witnessDb))) :=
  ⟨by decide, delete_category_cascades witnessDb "tech" (by decide)⟩

/-- A headline that is already `Approved`, for the C6 counterexample. -/
def approvedHeadline : Headline :=
  { headlineOrder5 with id := "h1", state := HeadlineState.Approved }

/-- CLAIM C6 (counterexample). The claim — records already in the target
state still count as touched for reporting — is false at a concrete input:
the store holds exactly one headline `h1`, already `Approved`; the bulk
operation on `ids = [h1]` with target `Approved` touches one matching
record, yet the count it computes and reports is 0, not 1. (The source also
resolves with `void`, returning no count to the caller at all.) -/
theorem bulk_state_count_skips_already_in_state :
    (updateMultipleHeadlineStates ["h1"] HeadlineState.Approved [approvedHeadline]).2 = 0 ∧
      ([approvedHeadline].filter (fun h => h.id ∈ (["h1"] : List String))).length = 1 := by
  decide

/-- CLAIM C6 (amended). Bulk state update reporting: the operation sets the
target state on every stored headline whose id is in the list, leaves every
other record in place, and the count it computes for reporting equals the
number of matching records whose state actually differed from the target —
records already in the target state are left as-is and are NOT counted (and
the function resolves with `void`, so the count reaches the caller only
through the log). -/
theorem bulk_state_update_semantics (ids : List String) (st : HeadlineState)
    (hs : List Headline) :
    (∀ h ∈ (updateMultipleHeadlineStates ids st hs).1, h.id ∈ ids → h.state = st) ∧
      (∀ i h, hs.get? i = some h →
        (updateMultipleHeadlineStates ids st hs).1.get? i =
          some (if h.id ∈ ids then { h with state := st } else h)) ∧
      (updateMultipleHeadlineStates ids st hs).2 =
        (hs.filter (fun h => decide (h.id ∈ ids ∧ h.state ≠ st))).length := by
  refine ⟨?_, ?_, ?_⟩
  · intro h hm hin
    obtain ⟨h₀, _, rfl⟩ := List.mem_map.mp hm
    by_cases hc : h₀.id ∈ ids ∧ h₀.state ≠ st
    · simp [hc]
    · rw [if_neg hc]
      rw [if_neg hc] at hin
      rcases Decidable.not_and_iff_or_not.mp hc with h1 | h2
      · exact absurd hin h1
      · exact Decidable.not_not.mp h2
  · intro i h hget
    have : (updateMultipleHeadlineStates ids st hs).1.get? i =
        (hs.get? i).map (fun h => if h.id ∈ ids ∧ h.state ≠ st then { h with state := st } else h) := by
      simp [updateMultipleHeadlineStates, List.get?_map]
    rw [this, hget]
    by_cases hin : h.id ∈ ids
    · by_cases hst : h.state = st
      · simp [hin, hst]
        cases h
        simp_all
      · simp [hin, hst]
    · simp [hin]
  · simp [updateMultipleHeadlineStates, List.countP_eq_length_filter]

/-- Witness for C6 (amended) at a concrete input: a two-headline store, one
matching id with differing state. -/
theorem bulk_state_update_semantics_witness :
    ([headlineOrder5].get? 0 = some headlineOrder5) ∧
      ((updateMultipleHeadlineStates ["h1"] HeadlineState.Approved [headlineOrder5]).1.get? 0 =
        some (if headlineOrder5.id ∈ (["h1"] : List String) then
          { headlineOrder5 with state := HeadlineState.Approved } else headlineOrder5)) ∧
      (updateMultipleHeadlineStates ["h1"] HeadlineState.Approved [headlineOrder5]).2 =
        ([headlineOrder5].filter
          (fun h => decide (h.id ∈ (["h1"] : List String) ∧ h.state ≠ HeadlineState.Approved))).length :=
  ⟨by decide,
    (bulk_state_update_semantics ["h1"] HeadlineState.Approved [headlineOrder5]).2.1
      0 headlineOrder5 (by decide),
    (bulk_state_update_semantics ["h1"] HeadlineState.Approved [headlineOrder5]).2.2⟩

/-- CLAIM C3. Filter precedence: whenever the `ids` filter field is present
and non-empty, `getHeadlines` returns — for every page and page size —
exactly the headlines whose id is in that set, stably sorted by `order`
ascending, with `totalCount` their number; the result mentions no other
filter field, so `states`, `category`, `search` and `isBreaking` are
ignored and a headline named in `ids` is returned even when it fails every
other supplied filter. -/
theorem ids_filter_precedence (hs : List Headline) (f : HeadlineFilters)
    (page pageSize : Int) (ids : List String)
    (hids : f.ids = some ids) (hne : ids.length > 0) :
    getHeadlines f page pageSize hs =
      (sortByOrder (hs.filter (fun h => h.id ∈ ids)),
        (hs.filter (fun h => h.id ∈ ids)).length) := by
  have hprov : idsProvided f = true := by
    simp [idsProvided, hids, hne]
  have hfilter : applyFilters f hs = hs.filter (fun h => h.id ∈ ids) := by
    simp [applyFilters, hids, hne]
  have hcond : ¬(page > 0 ∧ pageSize > 0 ∧ idsProvided f = false) := by
    intro hc
    rw [hprov] at hc
    exact absurd hc.2.2 (by simp)
  simp only [getHeadlines]
  rw [if_neg hcond, hfilter, (sortByOrder_perm _).length_eq]

/-- A `Draft`-state filter together with an `ids` filter naming the
approved headline `h1`, as in the spec's precedence example. -/
def draftAndIdsFilters : HeadlineFilters :=
  { states := some [HeadlineState.Draft], ids := some ["h1"] }

/-- Witness for C3: with `ids = [h1]` and `states = [Draft]` on a store
whose only headline `h1` is `Approved`, the query still returns `h1`. -/
theorem ids_filter_precedence_witness :
    (draftAndIdsFilters.ids = some ["h1"]) ∧
      getHeadlines draftAndIdsFilters 1 10 [approvedHeadline] = ([approvedHeadline], 1) :=
  ⟨rfl,
    (ids_filter_precedence [approvedHeadline] draftAndIdsFilters 1 10 ["h1"] rfl
      (by decide)).trans (by decide)⟩

/-- CLAIM C4. Pagination: `totalCount` always equals the size of the
filtered set before pagination; when `page > 0`, `pageSize > 0` and the
id-filter path was not taken, the items are exactly the slice
`[(page-1)*pageSize, page*pageSize)` of the order-sorted filtered set, so
their number is `min pageSize (totalCount - (page-1)*pageSize)` (0 when the
page starts past the end — no error); otherwise the entire filtered, sorted
set is returned. -/
theorem pagination_slices (hs : List Headline) (f : HeadlineFilters) (page pageSize : Int) :
    (getHeadlines f page pageSize hs).2 = (applyFilters f hs).length ∧
      (page > 0 → pageSize > 0 → idsProvided f = false →
        (getHeadlines f page pageSize hs).1 =
          ((sortByOrder (applyFilters f hs)).drop ((page - 1) * pageSize).toNat).take
            pageSize.toNat ∧
        (getHeadlines f page pageSize hs).1.length =
          min pageSize.toNat ((applyFilters f hs).length - ((page - 1) * pageSize).toNat)) ∧
      (¬(page > 0 ∧ pageSize > 0 ∧ idsProvided f = false) →
        (getHeadlines f page pageSize hs).1 = sortByOrder (applyFilters f hs)) := by
  refine ⟨?_, ?_, ?_⟩
  · simp only [getHeadlines]
    split
    · exact (sortByOrder_perm _).length_eq
    · exact (sortByOrder_perm _).length_eq
  · intro hp hps hprov
    have hcond : page > 0 ∧ pageSize > 0 ∧ idsProvided f = false := ⟨hp, hps, hprov⟩
    constructor
    · simp only [getHeadlines]
      rw [if_pos hcond]
    · simp only [getHeadlines]
      rw [if_pos hcond]
      rw [List.length_take, List.length_drop, (sortByOrder_perm _).length_eq]
  · intro hcond
    simp only [getHeadlines]
    rw [if_neg hcond]

/-- A store of 25 headlines with distinct ids and orders `0, …, 24`. -/
def store25 : List Headline :=
  (List.range 25).map (fun i => { headlineOrder5 with id := "h" ++ toString i, order := (i : Int) })

/-- Witness for C4, the spec's arithmetic example: 25 matches with page size
10 — page 3 returns exactly 5 items, page 4 returns 0 items, and
`totalCount` is 25 in both calls. -/
theorem pagination_slices_witness :
    (getHeadlines {} 3 10 store25).2 = 25 ∧
      (getHeadlines {} 3 10 store25).1.length = 5 ∧
      (getHeadlines {} 4 10 store25).1.length = 0 := by
  have h3 := pagination_slices store25 {} 3 10
  have h4 := pagination_slices store25 {} 4 10
  have hlen : (applyFilters {} store25).length = 25 := by decide
  refine ⟨h3.1.trans hlen, ?_, ?_⟩
  · rw [(h3.2.1 (by decide) (by decide) (by decide)).2, hlen]
    decide
  · rw [(h4.2.1 (by decide) (by decide) (by decide)).2, hlen]
    decide

instance (hs : List Headline) : Decidable (distinctOrders hs) := by
  unfold distinctOrders; infer_instance

instance (hs : List Headline) : Decidable (distinctIds hs) := by
  unfold distinctIds; infer_instance

/-- The renumbering pass always leaves pairwise distinct (indeed strictly
increasing) order values. -/
lemma distinctOrders_renumberFrom (n : Nat) (l : List Headline) :
    distinctOrders (renumberFrom n l) := by
  have hpair : ((renumberFrom n l).map (fun h => h.order)).Pairwise (· ≠ ·) := by
    rw [renumberFrom_map_order]
    rw [List.pairwise_map]
    exact (List.pairwise_lt_range' n l.length).imp
      (fun {a b} hlt h => absurd (Int.ofNat.inj h) (Nat.ne_of_lt hlt))
  exact List.pairwise_map.mp hpair

lemma foldl_max_le_init (l : List Headline) :
    ∀ a : Int, a ≤ l.foldl (fun m h => max m h.order) a := by
  induction l with
  | nil => intro a; exact le_refl a
  | cons h t ih => intro a; exact le_trans (le_max_left a h.order) (ih (max a h.order))

lemma mem_le_foldl_max (l : List Headline) :
    ∀ a : Int, ∀ x ∈ l, x.order ≤ l.foldl (fun m h => max m h.order) a := by
  induction l with
  | nil => intro a x hx; cases hx
  | cons h t ih =>
      intro a x hx
      rcases List.mem_cons.mp hx with rfl | htail
      · exact le_trans (le_max_right a x.order) (foldl_max_le_init t (max a x.order))
      · exact ih (max a h.order) x htail

/-- Inserting a fresh headline whose order is one more than the maximum
preserves distinctness of the order values. -/
lemma distinctOrders_create (data : HeadlineCreateInput) (db : DbData)
    (hd : distinctOrders db.headlines) :
    distinctOrders ((createHeadline data db).2).headlines := by
  simp only [createHeadline]
  rw [distinctOrders, List.pairwise_append]
  refine ⟨hd, List.pairwise_singleton _ _, ?_⟩
  intro a ha b hb
  rw [List.mem_singleton] at hb
  subst hb
  have hle : a.order ≤ db.headlines.foldl (fun m h => max m h.order) (-1) :=
    mem_le_foldl_max db.headlines (-1) a ha
  show a.order ≠ db.headlines.foldl (fun m h => max m h.order) (-1) + 1
  omega

/-- Every single mutation preserves the pairwise distinctness of the order
values. -/
lemma distinctOrders_applyOp (db : DbData) (op : Op) (hd : distinctOrders db.headlines) :
    distinctOrders (applyOp db op).headlines := by
  cases op with
  | reorder orderedIds => exact distinctOrders_renumberFrom 0 _
  | create data => exact distinctOrders_create data db hd
  | deleteOne id => exact hd.sublist (List.filter_sublist _)
  | deleteMany ids => exact hd.sublist (List.filter_sublist _)

/-- CLAIM C1. Total order invariant: starting from any store whose
headlines carry pairwise distinct order values, every sequence of
`reorderHeadlines`, `createHeadline`, `deleteHeadline` and
`deleteMultipleHeadlines` operations leaves the order values pairwise
distinct, so sorting by `order` never exhibits a duplicate. -/
theorem total_order_invariant (db : DbData) (ops : List Op)
    (hd : distinctOrders db.headlines) : distinctOrders (applyOps db ops).headlines := by
  induction ops generalizing db with
  | nil => exact hd
  | cons op rest ih => exact ih (applyOp db op) (distinctOrders_applyOp db op hd)

/-- Create payload used by the C1 witness. -/
def createInputW : HeadlineCreateInput :=
  { mainTitle := "m"
    subtitle := ""
    categories := ["tech"]
    state := HeadlineState.Draft
    priority := HeadlinePriority.Normal
    displayLines := 1
    publishDate := ""
    isBreaking := false }

/-- An operation sequence exercising all four mutation kinds. -/
def opsW : List Op :=
  [Op.create createInputW, Op.reorder ["h1", "headline-2"], Op.deleteOne "h1",
    Op.deleteMany ["headline-2", "nope"]]

/-- Witness for C1 at a concrete store and operation sequence. -/
theorem total_order_invariant_witness :
    distinctOrders witnessDb.headlines ∧
      distinctOrders (applyOps witnessDb opsW).headlines :=
  ⟨by decide, total_order_invariant witnessDb opsW (by decide)⟩

/-- A create request with an empty main title, failing request-level
validation. -/
def emptyTitleCreateData : HeadlineCreateData :=
  { mainTitle := ""
    subtitle := ""
    categories := ["tech"]
    state := HeadlineState.Draft
    priority := HeadlinePriority.Normal
    displayLines := 1
    publishDate := ""
    isBreaking := false }

/-- CLAIM C7 (counterexample). The claim — a create request failing
request-level validation is reported as a structured `ValidationError`
value, never by throwing — is false at a concrete input: on a create
payload with an empty `mainTitle`, the mutation façade
`createHeadlineAction` throws (`Except.error`) an `Error` carrying only a
concatenated message string, rather than returning any structured typed
result. -/
theorem create_action_throws_on_invalid :
    createHeadlineAction emptyTitleCreateData witnessDb =
      Except.error "Invalid headline data: Main title cannot be empty" := by
  rfl

/-- CLAIM C7 (amended). Validation failure reporting: a create or update
request that fails request-level validation (empty title, empty category
set, out-of-range display lines) makes the mutation façade throw an
`Error` — modelled as `Except.error` — whose message aggregates every
offending field's message, joined with commas behind a fixed prefix; the
failure is not returned as a structured typed value and the service layer
is never invoked. -/
theorem validation_failures_throw (d : HeadlineCreateData) (u : HeadlineUpdateInput)
    (id : String) (db db' : DbData)
    (hd : createValidationMessages d ≠ [])
    (hu : updateValidationMessages u ≠ []) :
    createHeadlineAction d db =
      Except.error ("Invalid headline data: " ++
        String.intercalate commaSep (createValidationMessages d)) ∧
      updateHeadlineAction id u db' =
        Except.error ("Invalid headline update data: " ++
          String.intercalate commaSep (updateValidationMessages u)) := by
  constructor
  · have hpos : (createValidationMessages d).length > 0 := List.length_pos.mpr hd
    simp only [createHeadlineAction]
    rw [if_pos hpos]
  · have hpos : (updateValidationMessages u).length > 0 := List.length_pos.mpr hu
    simp only [updateHeadlineAction]
    rw [if_pos hpos]

/-- An update request with an empty category list, failing the partial
schema's validation. -/
def emptyCategoriesUpdate : HeadlineUpdateInput :=
  { categories := some [] }

/-- Witness for C7 (amended) at concrete invalid create and update
payloads. -/
theorem validation_failures_throw_witness :
    (createValidationMessages emptyTitleCreateData ≠ [] ∧
        updateValidationMessages emptyCategoriesUpdate ≠ []) ∧
      (createHeadlineAction emptyTitleCreateData witnessDb =
          Except.error ("Invalid headline data: " ++
            String.intercalate commaSep (createValidationMessages emptyTitleCreateData)) ∧
        updateHeadlineAction "h1" emptyCategoriesUpdate witnessDb =
          Except.error ("Invalid headline update data: " ++
            String.intercalate commaSep (updateValidationMessages emptyCategoriesUpdate))) :=
  ⟨⟨by decide, by decide⟩,
    validation_failures_throw emptyTitleCreateData emptyCategoriesUpdate "h1" witnessDb
      witnessDb (by decide) (by decide)⟩

lemma lastIdxAux_eq_none (a : String) :
    ∀ (n : Nat) (L : List String), a ∉ L → lastIdxAux n L a = none := by
  intro n L
  induction L generalizing n with
  | nil => intro _; rfl
  | cons x xs ih =>
      intro hmem
      have hx : x ≠ a := fun h => hmem (h ▸ List.mem_cons_self x xs)
      have hxs : a ∉ xs := fun h => hmem (List.mem_cons_of_mem x h)
      simp [lastIdxAux, ih (n + 1) hxs, hx]

lemma lastIdxAux_get (L : List String) :
    ∀ (_ : L.Nodup) (n i : Nat) (hi : i < L.length),
      lastIdxAux n L (L.get ⟨i, hi⟩) = some (n + i) := by
  induction L with
  | nil => intro _ n i hi; cases hi
  | cons x xs ih =>
      intro hnd n i hi
      cases i with
      | zero =>
          have hx : x ∉ xs := (List.nodup_cons.mp hnd).1
          show lastIdxAux n (x :: xs) x = some (n + 0)
          simp [lastIdxAux, lastIdxAux_eq_none x (n + 1) xs hx]
      | succ j =>
          have hnd' : xs.Nodup := (List.nodup_cons.mp hnd).2
          have hj : j < xs.length := Nat.lt_of_succ_lt_succ hi
          have hrec := ih hnd' (n + 1) j hj
          show lastIdxAux n (x :: xs) (xs.get ⟨j, hj⟩) = some (n + (j + 1))
          rw [show lastIdxAux n (x :: xs) (xs.get ⟨j, hj⟩) =
            (match lastIdxAux (n + 1) xs (xs.get ⟨j, hj⟩) with
              | some k => some k
              | none => if x = xs.get ⟨j, hj⟩ then some n else none) from rfl]
          rw [hrec]
          show some (n + 1 + j) = some (n + (j + 1))
          rw [Nat.add_assoc, Nat.add_comm 1 j]

lemma lastIdx_get (L : List String) (hnd : L.Nodup) (i : Nat) (hi : i < L.length) :
    lastIdx L (L.get ⟨i, hi⟩) = some i := by
  have h := lastIdxAux_get L hnd 0 i hi
  simpa [lastIdx] using h

lemma lastIdx_eq_none (L : List String) (a : String) (h : a ∉ L) : lastIdx L a = none :=
  lastIdxAux_eq_none a 0 L h

lemma applyNewOrder_id (L : List String) (base : Int) (h : Headline) :
    (applyNewOrder L base h).id = h.id := by
  rcases hm : lastIdx L h.id with _ | i <;> simp [applyNewOrder, hm]

lemma applyNewOrder_not_mem (L : List String) (base : Int) (h : Headline)
    (hm : h.id ∉ L) : applyNewOrder L base h = h := by
  simp [applyNewOrder, lastIdx_eq_none L h.id hm]

lemma applyNewOrder_mem_order (L : List String) (base : Int) (h : Headline) (i : Nat)
    (hm : lastIdx L h.id = some i) : (applyNewOrder L base h).order = base + (i : Int) := by
  simp [applyNewOrder, hm]

/-- In a list sorted (non-strictly) by `order` whose ids are pairwise
distinct, the first-occurrence index of an element with the strictly
smaller order comes strictly before that of an element with the larger
order. -/
lemma findIdxId_lt_of_sorted :
    ∀ (l : List Headline), List.Sorted leOrder l → distinctIds l →
      ∀ x y : Headline, x ∈ l → y ∈ l → x.id ≠ y.id → x.order < y.order →
        findIdxId l x.id < findIdxId l y.id := by
  intro l
  induction l with
  | nil => intro _ _ x y hx; cases hx
  | cons z t ih =>
      intro hsort hids x y hx hy hne hlt
      have hz : ∀ b ∈ t, leOrder z b := (List.sorted_cons.mp hsort).1
      have hsort' : List.Sorted leOrder t := (List.sorted_cons.mp hsort).2
      have hzid : ∀ b ∈ t, z.id ≠ b.id := (List.pairwise_cons.mp hids).1
      have hids' : distinctIds t := (List.pairwise_cons.mp hids).2
      by_cases hzx : z.id = x.id
      · have h1 : findIdxId (z :: t) x.id = 0 := by
          simp [findIdxId, List.findIdx_cons, hzx]
        have hzy : z.id ≠ y.id := fun h => hne (hzx ▸ h)
        have h2 : findIdxId (z :: t) y.id = findIdxId t y.id + 1 := by
          simp [findIdxId, List.findIdx_cons, beq_eq_false_iff_ne.mpr hzy]
        rw [h1, h2]
        exact Nat.succ_pos _
      · by_cases hzy : z.id = y.id
        · -- the head is `y` itself, but everything after it has order ≥ z.order,
          -- contradicting `x.order < y.order`
          have hyz : y = z := by
            rcases List.mem_cons.mp hy with rfl | hyt
            · rfl
            · exact absurd hzy (hzid y hyt)
          have hxt : x ∈ t := by
            rcases List.mem_cons.mp hx with rfl | hxt
            · exact absurd rfl hzx
            · exact hxt
          have : z.order ≤ x.order := hz x hxt
          rw [hyz] at hlt
          omega
        · have hxt : x ∈ t := by
            rcases List.mem_cons.mp hx with rfl | hxt
            · exact absurd rfl hzx
            · exact hxt
          have hyt : y ∈ t := by
            rcases List.mem_cons.mp hy with rfl | hyt
            · exact absurd rfl hzy
            · exact hyt
          have h1 : findIdxId (z :: t) x.id = findIdxId t x.id + 1 := by
            simp [findIdxId, List.findIdx_cons, beq_eq_false_iff_ne.mpr hzx]
          have h2 : findIdxId (z :: t) y.id = findIdxId t y.id + 1 := by
            simp [findIdxId, List.findIdx_cons, beq_eq_false_iff_ne.mpr hzy]
          rw [h1, h2]
          exact Nat.succ_lt_succ (ih hsort' hids' x y hxt hyt hne hlt)

lemma findIdxId_renumberFrom (a : String) :
    ∀ (n : Nat) (l : List Headline), findIdxId (renumberFrom n l) a = findIdxId l a := by
  intro n l
  induction l generalizing n with
  | nil => rfl
  | cons h t ih =>
      have ih' : ∀ m : Nat, List.findIdx (fun h => h.id == a) (renumberFrom m t) =
          List.findIdx (fun h => h.id == a) t := fun m => ih m
      simp [renumberFrom, findIdxId, List.findIdx_cons, ih']

/-- The renumbering pass leaves a list sorted by `order` (its orders are
strictly increasing). -/
lemma sorted_renumberFrom (n : Nat) (l : List Headline) :
    List.Sorted leOrder (renumberFrom n l) := by
  have hpair : ((renumberFrom n l).map (fun h => h.order)).Pairwise (· ≤ ·) := by
    rw [renumberFrom_map_order, List.pairwise_map]
    exact (List.pairwise_lt_range' n l.length).imp
      (fun {a b} hlt => Int.ofNat_le.mpr (Nat.le_of_lt hlt))
  have hp : List.Pairwise (fun a b : Headline => a.order ≤ b.order) (renumberFrom n l) :=
    List.pairwise_map.mp hpair
  exact hp

/-- CLAIM C2. Reorder correctness: on a store with pairwise distinct ids and
pairwise distinct order values, and a duplicate-free sequence of ids of
existing headlines, `reorderHeadlines` produces a collection that is sorted
by `order` (so the output list IS the order-sorted collection) in which
(a) the headlines named by the sequence occur in exactly the sequence's
relative order, and (b) any two headlines not named in the sequence compare
by position exactly as their previous order values compared, i.e. they keep
their previous relative order. -/
theorem reorder_correctness (hs : List Headline) (L : List String)
    (hIds : distinctIds hs) (hOrd : distinctOrders hs) (hNd : L.Nodup)
    (hEx : ∀ a ∈ L, ∃ h ∈ hs, h.id = a) :
    List.Sorted leOrder (reorderHeadlines L hs) ∧
      (∀ (i j : Nat) (hi : i < L.length) (hj : j < L.length), i < j →
        findIdxId (reorderHeadlines L hs) (L.get ⟨i, hi⟩) <
          findIdxId (reorderHeadlines L hs) (L.get ⟨j, hj⟩)) ∧
      (∀ x ∈ hs, ∀ y ∈ hs, x.id ∉ L → y.id ∉ L → x.id ≠ y.id →
        (findIdxId (reorderHeadlines L hs) x.id < findIdxId (reorderHeadlines L hs) y.id ↔
          x.order < y.order)) := by
  have hre : reorderHeadlines L hs =
      renumberFrom 0 (sortByOrder (hs.map (applyNewOrder L ((minCurrentOrder L hs).getD 0)))) :=
    rfl
  set base : Int := (minCurrentOrder L hs).getD 0 with hbase
  set updated : List Headline := hs.map (applyNewOrder L base) with hupd
  set sorted : List Headline := sortByOrder updated with hsortdef
  have hperm : List.Perm sorted updated := sortByOrder_perm updated
  have hsorted : List.Sorted leOrder sorted := sortByOrder_sorted updated
  have hidsU : distinctIds updated := by
    unfold distinctIds
    rw [hupd, List.pairwise_map]
    exact hIds.imp (fun {a b} hab => by
      rw [applyNewOrder_id, applyNewOrder_id]; exact hab)
  have hidsS : distinctIds sorted :=
    (hperm.pairwise_iff (fun {a b} hab => Ne.symm hab)).mpr hidsU
  have htrans : ∀ a : String, findIdxId (reorderHeadlines L hs) a = findIdxId sorted a := by
    intro a
    rw [hre]
    exact findIdxId_renumberFrom a 0 _
  refine ⟨by rw [hre]; exact sorted_renumberFrom 0 _, ?_, ?_⟩
  · intro i j hi hj hij
    obtain ⟨hx, hxmem, hxid⟩ := hEx (L.get ⟨i, hi⟩) (List.get_mem L i hi)
    obtain ⟨hy, hymem, hyid⟩ := hEx (L.get ⟨j, hj⟩) (List.get_mem L j hj)
    have hxin : applyNewOrder L base hx ∈ sorted :=
      hperm.mem_iff.mpr (hupd ▸ List.mem_map_of_mem (applyNewOrder L base) hxmem)
    have hyin : applyNewOrder L base hy ∈ sorted :=
      hperm.mem_iff.mpr (hupd ▸ List.mem_map_of_mem (applyNewOrder L base) hymem)
    have hxid' : (applyNewOrder L base hx).id = L.get ⟨i, hi⟩ := by
      rw [applyNewOrder_id]; exact hxid
    have hyid' : (applyNewOrder L base hy).id = L.get ⟨j, hj⟩ := by
      rw [applyNewOrder_id]; exact hyid
    have hgetne : L.get ⟨i, hi⟩ ≠ L.get ⟨j, hj⟩ := by
      intro h
      have := hNd.get_inj_iff.mp h
      have : i = j := congrArg Fin.val this
      omega
    have hxord : (applyNewOrder L base hx).order = base + (i : Int) :=
      applyNewOrder_mem_order L base hx i (by rw [hxid]; exact lastIdx_get L hNd i hi)
    have hyord : (applyNewOrder L base hy).order = base + (j : Int) :=
      applyNewOrder_mem_order L base hy j (by rw [hyid]; exact lastIdx_get L hNd j hj)
    have hlt : (applyNewOrder L base hx).order < (applyNewOrder L base hy).order := by
      rw [hxord, hyord]; omega
    have hne : (applyNewOrder L base hx).id ≠ (applyNewOrder L base hy).id := by
      rw [hxid', hyid']; exact hgetne
    have hpos := findIdxId_lt_of_sorted sorted hsorted hidsS _ _ hxin hyin hne hlt
    rw [htrans, htrans]
    rw [hxid', hyid'] at hpos
    exact hpos
  · intro x hx y hy hxL hyL hne
    have hxu : x ∈ sorted := by
      have := List.mem_map_of_mem (applyNewOrder L base) hx
      rw [applyNewOrder_not_mem L base x hxL] at this
      exact hperm.mem_iff.mpr (hupd ▸ this)
    have hyu : y ∈ sorted := by
      have := List.mem_map_of_mem (applyNewOrder L base) hy
      rw [applyNewOrder_not_mem L base y hyL] at this
      exact hperm.mem_iff.mpr (hupd ▸ this)
    have hordne : x.order ≠ y.order := by
      have hxyne : x ≠ y := fun h => hne (congrArg Headline.id h)
      exact List.Pairwise.forall (fun {a b} hab => Ne.symm hab) hOrd hx hy hxyne
    rw [htrans, htrans]
    constructor
    · intro hpos
      by_contra hnlt
      have hylt : y.order < x.order := lt_of_le_of_ne (not_lt.mp hnlt) (fun h => hordne h.symm)
      have := findIdxId_lt_of_sorted sorted hsorted hidsS y x hyu hxu hne.symm hylt
      omega
    · intro hord
      exact findIdxId_lt_of_sorted sorted hsorted hidsS x y hxu hyu hne hord

/-- Headlines `a` … `e` with orders `0` … `4`, for the C2 witness. -/
def hA : Headline := { headlineOrder5 with id := "a", order := 0 }

/-- Second witness headline. -/
def hB : Headline := { headlineOrder5 with id := "b", order := 1 }

/-- Third witness headline. -/
def hC : Headline := { headlineOrder5 with id := "c", order := 2 }

/-- Fourth witness headline. -/
def hD : Headline := { headlineOrder5 with id := "d", order := 3 }

/-- Fifth witness headline. -/
def hE : Headline := { headlineOrder5 with id := "e", order := 4 }

/-- The five-headline store of the C2 witness, orders `[0, 1, 2, 3, 4]`. -/
def storeABCDE : List Headline := [hA, hB, hC, hD, hE]

/-- Witness for C2: moving the last headline `e` in front of `a` (the
spec's own example of a reorder request). The subset `[e, a]` ends in that
relative order, and the untouched pair `(b, c)` keeps its previous relative
order. -/
theorem reorder_correctness_witness :
    (distinctIds storeABCDE ∧ distinctOrders storeABCDE ∧
        (["e", "a"] : List String).Nodup ∧
        ∀ a ∈ (["e", "a"] : List String), ∃ h ∈ storeABCDE, h.id = a) ∧
      (findIdxId (reorderHeadlines ["e", "a"] storeABCDE) "e" <
        findIdxId (reorderHeadlines ["e", "a"] storeABCDE) "a") ∧
      (findIdxId (reorderHeadlines ["e", "a"] storeABCDE) hB.id <
          findIdxId (reorderHeadlines ["e", "a"] storeABCDE) hC.id ↔
        hB.order < hC.order) :=
  ⟨⟨by decide, by decide, by decide, by decide⟩,
    (reorder_correctness storeABCDE ["e", "a"] (by decide) (by decide) (by decide)
        (by decide)).2.1 0 1 (by decide) (by decide) (by decide),
    (reorder_correctness storeABCDE ["e", "a"] (by decide) (by decide) (by decide)
        (by decide)).2.2 hB (by decide) hC (by decide) (by decide) (by decide) (by decide)⟩

end HeadlineRepo
